import Mathlib

/-!
Verification of the `opentelemetry-contrib` Datadog exporter
(`src/opentelemetry-contrib/src/datadog/mod.rs`).

The crate root declares two submodules, `intern` and `model`, whose sources are
not present under `src/`; definitions derived from them are marked
`Modelled from the spec:` and follow the specification's wording.  Everything
else is a direct shallow embedding of `mod.rs`.
-/

/-- Modelled from the spec: `model.rs` (which declares `pub enum ApiVersion`,
re-exported by `mod.rs`) is not under `src/`.  The spec describes a closed set
of two wire-format variants, verbose and compact; `mod.rs` names the compact
one `Version05` (the builder default) and the doc example selects it
explicitly. -/
inductive ApiVersion
  | Version03
  | Version05
deriving DecidableEq, Repr

/-- Modelled from the spec: `ApiVersion::path` lives in the missing `model.rs`.
The spec requires an "agent-version-specific suffix appended to a configurable
base endpoint (distinct path per wire-format version)". -/
def ApiVersion.path : ApiVersion → String
  | ApiVersion.Version03 => "/v0.3/traces"
  | ApiVersion.Version05 => "/v0.5/traces"

/-- Modelled from the spec: `ApiVersion::content_type` lives in the missing
`model.rs`.  The spec requires "a version-specific MIME value distinguishing
verbose vs compact encodings", so the two variants carry distinct MIME
strings. -/
def ApiVersion.content_type : ApiVersion → String
  | ApiVersion.Version03 => "application/msgpack-v03"
  | ApiVersion.Version05 => "application/msgpack-v05"

/-- An attribute value: one of string, integer, float, boolean (spec §3). -/
inductive Value
  | str (s : String)
  | boolV (b : Bool)
  | int (i : Int)
  | float (f : Float)

/-- Span status: ok / error / unset (spec §3). -/
inductive SpanStatus
  | ok
  | unset
  | error
deriving DecidableEq, Repr

/-- Input span (spec §3): 128-bit trace identifier, 64-bit span identifier,
optional parent, operation name, start/end timestamps in nanoseconds, status
with optional message, ordered attribute mapping, and a kind designator.
Timestamps are kept separately so that the raw duration computation
`end_time - start_time` can underflow, as the spec discusses. -/
structure SpanData where
  trace_id : Nat
  span_id : Nat
  parent_span_id : Option Nat
  name : String
  start_time : Int
  end_time : Int
  status : SpanStatus
  status_message : Option String
  attributes : List (String × Value)
  kind : String

/-- Mapped Span (spec §3): the intermediate record produced by the
Identifier & Field Mapper. -/
structure MappedSpan where
  trace_id : Nat
  span_id : Nat
  parent_id : Nat
  service : String
  name : String
  resource : String
  span_type : Option String
  start : Int
  duration : Int
  error : Nat
  meta : List (String × String)
  metrics : List (String × Float)

/-- Boolean attributes are rendered as "true"/"false" (spec §4.2). -/
def renderBool (b : Bool) : String := if b then "true" else "false"

/-- Modelled from the spec: the Attribute Splitter lives in the missing
`model.rs`.  Spec §4.2: partitions a span's attribute mapping into `meta`
(string and boolean values, booleans rendered as "true"/"false") and
`metrics` (integer and floating-point values, coerced to float64). -/
def splitAttributes : List (String × Value) → List (String × String) × List (String × Float)
  | [] => ([], [])
  | p :: rest =>
    let r := splitAttributes rest
    match p.2 with
    | Value.str s => ((p.1, s) :: r.1, r.2)
    | Value.boolV b => ((p.1, renderBool b) :: r.1, r.2)
    | Value.int i => (r.1, (p.1, Float.ofInt i) :: r.2)
    | Value.float f => (r.1, (p.1, f) :: r.2)

/-- The fixed tracing-provider identity string used as the Datadog span
`name`; `mod.rs` registers the tracer under this provider name and its crate
doc explains that spans are named "with the name of the tracing provider". -/
def providerIdentity : String := "opentelemetry-datadog"

/-- The attribute conventionally used for the Datadog span type
(`mod.rs` crate doc: "This can be set as the `span.type` OpenTelemetry span
attribute"). -/
def spanTypeKey : String := "span.type"

/-- Look up the first string-valued attribute with the given key. -/
def lookupStr (key : String) : List (String × Value) → Option String
  | [] => none
  | (k, v) :: rest =>
    if k = key then
      match v with
      | Value.str s => some s
      | _ => lookupStr key rest
    else lookupStr key rest

/-- Any status message is folded into `meta` under a reserved key
(spec §4.1). -/
def statusMeta : Option String → List (String × String)
  | none => []
  | some m => [("error.msg", m)]

/-- Modelled from the spec: the Identifier & Field Mapper lives in the missing
`model.rs`.  Spec §4.1/§3: truncate the 128-bit trace identifier to its low 64
bits, copy the span identifier, use 0 for a missing parent, set `service` from
the batch configuration, fix `name` to the provider identity string, preserve
the caller-supplied span name as `resource`, populate `span_type` from the
conventional attribute when present, clamp a negative raw duration to 0, set
`error` to 1 iff the status is error, fold any status message into `meta`
under a reserved key, and take `meta`/`metrics` from the Attribute
Splitter. -/
def mapSpan (service_name : String) (s : SpanData) : MappedSpan :=
  let split := splitAttributes s.attributes
  { trace_id := s.trace_id % 2 ^ 64
    span_id := s.span_id % 2 ^ 64
    parent_id := (s.parent_span_id.getD 0) % 2 ^ 64
    service := service_name
    name := providerIdentity
    resource := s.name
    span_type := lookupStr spanTypeKey s.attributes
    start := s.start_time
    duration := max 0 (s.end_time - s.start_time)
    error := match s.status with
      | SpanStatus.error => 1
      | _ => 0
    meta := split.1 ++ statusMeta s.status_message
    metrics := split.2 }

/-- Modelled from the spec: the String Interner lives in the missing
`intern.rs`.  Spec §3/§4.3: a string-to-index mapping kept in insertion order,
backed by the ordered table of strings; created fresh per export batch. -/
structure StringInterner where
  data : List String

/-- A fresh interner for a new batch. -/
def StringInterner.empty : StringInterner := ⟨[]⟩

/-- Index of the first occurrence of a string in the table, if any. -/
def lookupIdx (s : String) : List String → Option Nat
  | [] => none
  | x :: xs => if x = s then some 0 else (lookupIdx s xs).map (· + 1)

/-- Modelled from the spec: §4.3 `intern(value) -> index`: if the value was
previously seen in this batch, return its existing index; otherwise append it
to the table, assign the next sequential index (starting at 0), and return
that index. -/
def StringInterner.intern (st : StringInterner) (s : String) : Nat × StringInterner :=
  match lookupIdx s st.data with
  | some i => (i, st)
  | none => (st.data.length, ⟨st.data ++ [s]⟩)

/-- Modelled from the spec: §4.3 `drain()` returns the table in assignment
order, consuming the interner. -/
def StringInterner.drain (st : StringInterner) : List String := st.data

/-- Intern a sequence of strings in order, collecting the returned indices. -/
def internAll (st : StringInterner) : List String → List Nat × StringInterner
  | [] => ([], st)
  | x :: xs =>
    let r1 := st.intern x
    let r2 := internAll r1.2 xs
    (r1.1 :: r2.1, r2.2)

/-- Intern every key and value of a string-to-string map (spec §4.4: in the
compact variant each meta key and value is replaced by its index). -/
def internPairs (st : StringInterner) :
    List (String × String) → List (Nat × Nat) × StringInterner
  | [] => ([], st)
  | p :: rest =>
    let r1 := st.intern p.1
    let r2 := r1.2.intern p.2
    let r3 := internPairs r2.2 rest
    ((r1.1, r2.1) :: r3.1, r3.2)

/-- A compact-variant span record (spec §4.4): every string-typed field
(service, name, resource, span_type, each meta key and value) is replaced by
its integer index into the batch string table; numeric fields are emitted by
value. -/
structure CompactSpan where
  service : Nat
  name : Nat
  resource : Nat
  span_type : Option Nat
  trace_id : Nat
  span_id : Nat
  parent_id : Nat
  start : Int
  duration : Int
  error : Nat
  meta : List (Nat × Nat)
  metrics : List (String × Float)

/-- Modelled from the spec: the compact Binary Record Encoder lives in the
missing `model.rs`.  Spec §4.4, compact variant: replace each string-typed
field by interning it and emitting only its integer index. -/
def encodeSpanC (st : StringInterner) (m : MappedSpan) : CompactSpan × StringInterner :=
  let r1 := st.intern m.service
  let r2 := r1.2.intern m.name
  let r3 := r2.2.intern m.resource
  let r4 : Option Nat × StringInterner :=
    match m.span_type with
    | none => (none, r3.2)
    | some t =>
      let r := r3.2.intern t
      (some r.1, r.2)
  let r5 := internPairs r4.2 m.meta
  ({ service := r1.1, name := r2.1, resource := r3.1, span_type := r4.1
     trace_id := m.trace_id, span_id := m.span_id, parent_id := m.parent_id
     start := m.start, duration := m.duration, error := m.error
     meta := r5.1, metrics := m.metrics }, r5.2)

/-- Encode a batch of mapped spans in order, threading one interner through
the whole batch (spec §4.3: one interner instance per batch). -/
def encodeSpansC (st : StringInterner) :
    List MappedSpan → List CompactSpan × StringInterner
  | [] => ([], st)
  | m :: rest =>
    let r1 := encodeSpanC st m
    let r2 := encodeSpansC r1.2 rest
    (r1.1 :: r2.1, r2.2)

/-- Modelled from the spec: the compact Payload Builder lives in the missing
`model.rs`.  Spec §4.5: the table is fully populated before any record is
final; the payload is the string table followed by the span records. -/
def encodeBatchC (spans : List MappedSpan) : List CompactSpan × List String :=
  let r := encodeSpansC StringInterner.empty spans
  (r.1, r.2.drain)

/-- The receiving agent resolves an index against the decoded string table
(spec §4.4). -/
def resolveIdx (table : List String) (i : Nat) : Option String := table[i]?

/-- `trace::ExportResult` from the `opentelemetry` exporter API, as used by
`mod.rs` (`Success`, `FailedRetryable`, `FailedNotRetryable`). -/
inductive ExportResult
  | Success
  | FailedRetryable
  | FailedNotRetryable
deriving DecidableEq, Repr

/-- The outbound HTTP request built by `DatadogExporter::export`
(`mod.rs` lines 246-254): method, URI, Content-Type header, byte body. -/
structure HttpRequest where
  method : String
  uri : String
  contentType : String
  body : List Nat
deriving DecidableEq, Repr

/-- `Request::builder().method(POST).uri(..).header(CONTENT_TYPE, ..)
.body(data)` from `mod.rs`.  The `http` crate's builder is external and can
fail, which is modelled by the validity check `ok`; on success it yields
exactly the request described by its arguments. -/
def mkRequest (ok : HttpRequest → Bool) (uri contentType : String)
    (body : List Nat) : Option HttpRequest :=
  if ok ⟨"POST", uri, contentType, body⟩ then some ⟨"POST", uri, contentType, body⟩
  else none

/-- `DatadogExporter` (`mod.rs` lines 143-148): client, request URL, service
name, version.  The URI type of the `http` crate is modelled as a string. -/
structure DatadogExporter (C : Type) where
  client : C
  request_url : String
  service_name : String
  version : ApiVersion

/-- `DatadogExporter::new` (`mod.rs` lines 151-158). -/
def DatadogExporter.new (service_name : String) (request_url : String)
    (version : ApiVersion) (client : C) : DatadogExporter C :=
  { client, request_url, service_name, version }

/-- `DatadogExporter::export` (`mod.rs` lines 240-259).  The encoder
(`self.version.encode`, in the missing `model.rs`), the request builder check,
and the client's `send` (which returns `Result<ExportResult, _>`) are
parameters; `none` models the `Err` case of each.  The second component
records every request handed to the transport during the call. -/
def DatadogExporter.export (e : DatadogExporter C)
    (encode : ApiVersion → String → List SpanData → Option (List Nat))
    (ok : HttpRequest → Bool)
    (send : C → HttpRequest → Option ExportResult)
    (batch : List SpanData) : ExportResult × List HttpRequest :=
  match encode e.version e.service_name batch with
  | none => (ExportResult.FailedNotRetryable, [])
  | some data =>
    match mkRequest ok e.request_url e.version.content_type data with
    | none => (ExportResult.FailedNotRetryable, [])
    | some req =>
      (match send e.client req with
       | none => ExportResult.FailedNotRetryable
       | some r => r, [req])

/-- `DatadogPipelineBuilder` (`mod.rs` lines 163-169), polymorphic in the SDK
trace-config type `T` and the HTTP client type `C`. -/
structure DatadogPipelineBuilder (T C : Type) where
  service_name : String
  agent_endpoint : String
  trace_config : Option T
  version : ApiVersion
  client : C

/-- `DEFAULT_AGENT_ENDPOINT` (`mod.rs` line 136). -/
def DEFAULT_AGENT_ENDPOINT : String := "http://127.0.0.1:8126"

/-- `DEFAULT_SERVICE_NAME` (`mod.rs` line 139). -/
def DEFAULT_SERVICE_NAME : String := "OpenTelemetry"

/-- `DatadogPipelineBuilder::new` (`mod.rs` lines 178-186). -/
def DatadogPipelineBuilder.new (client : C) : DatadogPipelineBuilder T C :=
  { service_name := DEFAULT_SERVICE_NAME
    agent_endpoint := DEFAULT_AGENT_ENDPOINT
    trace_config := none
    version := ApiVersion.Version05
    client }

/-- `with_service_name` (`mod.rs` lines 213-216). -/
def DatadogPipelineBuilder.with_service_name (b : DatadogPipelineBuilder T C)
    (name : String) : DatadogPipelineBuilder T C :=
  { b with service_name := name }

/-- `with_agent_endpoint` (`mod.rs` lines 219-222). -/
def DatadogPipelineBuilder.with_agent_endpoint (b : DatadogPipelineBuilder T C)
    (endpoint : String) : DatadogPipelineBuilder T C :=
  { b with agent_endpoint := endpoint }

/-- `with_trace_config` (`mod.rs` lines 225-228). -/
def DatadogPipelineBuilder.with_trace_config (b : DatadogPipelineBuilder T C)
    (config : T) : DatadogPipelineBuilder T C :=
  { b with trace_config := some config }

/-- `with_version` (`mod.rs` lines 231-234). -/
def DatadogPipelineBuilder.with_version (b : DatadogPipelineBuilder T C)
    (version : ApiVersion) : DatadogPipelineBuilder T C :=
  { b with version := version }

/-- `DatadogPipelineBuilder::install` (`mod.rs` lines 189-210): concatenate
the agent endpoint with the version's path suffix, parse it as a URI (the only
fallible step, `endpoint.parse()?`; URI parsing belongs to the external `http`
crate and is a parameter), and build the exporter.  The tracer/provider
plumbing around it is external SDK code that cannot fail. -/
def DatadogPipelineBuilder.install (b : DatadogPipelineBuilder T C)
    (parseUri : String → Option String) : Option (DatadogExporter C) :=
  match parseUri (b.agent_endpoint ++ b.version.path) with
  | none => none
  | some uri => some (DatadogExporter.new b.service_name uri b.version b.client)

/-! ### Lemmas about the string interner -/

theorem lookupIdx_eq_none_iff (s : String) (l : List String) :
    lookupIdx s l = none ↔ s ∉ l := by
  induction l with
  | nil => simp [lookupIdx]
  | cons x xs ih =>
    by_cases h : x = s
    · simp [lookupIdx, h]
    · simp [lookupIdx, h, ih, Ne.symm h]

theorem lookupIdx_getElem (s : String) (l : List String) (i : Nat)
    (h : lookupIdx s l = some i) : l[i]? = some s := by
  induction l generalizing i with
  | nil => simp [lookupIdx] at h
  | cons x xs ih =>
    by_cases hx : x = s
    · simp only [lookupIdx, if_pos hx, Option.some.injEq] at h
      subst h
      simp [hx]
    · simp only [lookupIdx, if_neg hx, Option.map_eq_some'] at h
      obtain ⟨j, hj, rfl⟩ := h
      simpa using ih j hj

theorem lookupIdx_append_of_some (s : String) (l t : List String) (i : Nat)
    (h : lookupIdx s l = some i) : lookupIdx s (l ++ t) = some i := by
  induction l generalizing i with
  | nil => simp [lookupIdx] at h
  | cons x xs ih =>
    by_cases hx : x = s
    · simp only [lookupIdx, if_pos hx, Option.some.injEq] at h
      subst h
      simp [lookupIdx, hx]
    · simp only [lookupIdx, if_neg hx, Option.map_eq_some'] at h
      obtain ⟨j, hj, rfl⟩ := h
      simp [lookupIdx, hx, ih j hj]

theorem lookupIdx_append_self (s : String) (l : List String) (h : s ∉ l) :
    lookupIdx s (l ++ [s]) = some l.length := by
  induction l with
  | nil => simp [lookupIdx]
  | cons x xs ih =>
    have hx : x ≠ s := fun hxs => h (hxs ▸ List.mem_cons_self x xs)
    have hs : s ∉ xs := fun hm => h (List.mem_cons_of_mem x hm)
    simp [lookupIdx, hx, ih hs]

theorem intern_lookup (st : StringInterner) (s : String) :
    lookupIdx s (st.intern s).2.data = some (st.intern s).1 := by
  unfold StringInterner.intern
  cases h : lookupIdx s st.data with
  | some i => simp [h]
  | none =>
    simp only [h]
    exact lookupIdx_append_self s st.data ((lookupIdx_eq_none_iff s st.data).mp h)

theorem intern_getElem (st : StringInterner) (s : String) :
    (st.intern s).2.data[(st.intern s).1]? = some s :=
  lookupIdx_getElem s _ _ (intern_lookup st s)

theorem intern_extendsTable (st : StringInterner) (s : String) :
    st.data <+: (st.intern s).2.data := by
  unfold StringInterner.intern
  cases h : lookupIdx s st.data with
  | some i => simp [h]
  | none => simp [h]

theorem getElem_mono_of_isPre {l l' : List String} (h : l <+: l') {i : Nat} {s : String}
    (hi : l[i]? = some s) : l'[i]? = some s := by
  obtain ⟨t, rfl⟩ := h
  have hlen : i < l.length := (List.getElem?_eq_some_iff.mp hi).1
  rw [List.getElem?_append_left hlen]
  exact hi

theorem lookupIdx_mono_of_isPre {l l' : List String} (h : l <+: l') {s : String} {i : Nat}
    (hi : lookupIdx s l = some i) : lookupIdx s l' = some i := by
  obtain ⟨t, rfl⟩ := h
  exact lookupIdx_append_of_some s l t i hi

theorem intern_nodup (st : StringInterner) (s : String) (h : st.data.Nodup) :
    (st.intern s).2.data.Nodup := by
  unfold StringInterner.intern
  cases hl : lookupIdx s st.data with
  | some i => simpa [hl] using h
  | none =>
    have hs : s ∉ st.data := (lookupIdx_eq_none_iff s st.data).mp hl
    simp only [hl]
    simp [List.nodup_append, h, hs]

theorem getElem?_inj_of_nodup {l : List String} (h : l.Nodup) {i j : Nat} {s : String}
    (hi : l[i]? = some s) (hj : l[j]? = some s) : i = j := by
  induction l generalizing i j with
  | nil => simp at hi
  | cons x xs ih =>
    have hx : x ∉ xs := (List.nodup_cons.mp h).1
    have hxs : xs.Nodup := (List.nodup_cons.mp h).2
    match i, j with
    | 0, 0 => rfl
    | 0, j + 1 =>
      simp only [List.getElem?_cons_zero, Option.some.injEq] at hi
      simp only [List.getElem?_cons_succ] at hj
      exact absurd (hi ▸ List.getElem?_mem hj) hx
    | i + 1, 0 =>
      simp only [List.getElem?_cons_zero, Option.some.injEq] at hj
      simp only [List.getElem?_cons_succ] at hi
      exact absurd (hj ▸ List.getElem?_mem hi) hx
    | i + 1, j + 1 =>
      simp only [List.getElem?_cons_succ] at hi hj
      exact congrArg Nat.succ (ih hxs hi hj)

theorem intern_stable (st : StringInterner) (s : String) (st' : StringInterner)
    (h : (st.intern s).2.data <+: st'.data) :
    st'.intern s = ((st.intern s).1, st') := by
  have hl : lookupIdx s st'.data = some (st.intern s).1 :=
    lookupIdx_mono_of_isPre h (intern_lookup st s)
  show (match lookupIdx s st'.data with
    | some i => (i, st')
    | none => (st'.data.length, ⟨st'.data ++ [s]⟩)) = ((st.intern s).1, st')
  rw [hl]

theorem internAll_fresh (xs : List String) (st : StringInterner)
    (hnd : xs.Nodup) (hfresh : ∀ x ∈ xs, x ∉ st.data) :
    internAll st xs = (List.range' st.data.length xs.length, ⟨st.data ++ xs⟩) := by
  induction xs generalizing st with
  | nil =>
    simp only [internAll, List.length_nil, List.range', List.append_nil]
  | cons x xs ih =>
    have hx : x ∉ st.data := hfresh x (List.mem_cons_self x xs)
    have hstep : st.intern x = (st.data.length, ⟨st.data ++ [x]⟩) := by
      unfold StringInterner.intern
      rw [(lookupIdx_eq_none_iff x st.data).mpr hx]
    have hfresh' : ∀ y ∈ xs, y ∉ (st.data ++ [x]) := by
      intro y hy
      have hyx : y ≠ x := by
        intro hyx
        exact (List.nodup_cons.mp hnd).1 (hyx ▸ hy)
      have hyd : y ∉ st.data := hfresh y (List.mem_cons_of_mem x hy)
      simp [hyd, hyx]
    have := ih ⟨st.data ++ [x]⟩ (List.nodup_cons.mp hnd).2 hfresh'
    simp only [internAll, hstep, this, List.length_cons, List.length_append,
      List.length_nil, List.range'_succ]
    simp [List.append_assoc]

/-- C2: interning a string previously interned in the batch returns the same
index as the first call (even after further interning, modelled by any later
interner state extending the table), and interning N distinct strings into a
fresh interner yields exactly the sequential indices 0, 1, ..., N-1 in
first-seen order, the table holding the strings in that order. -/
theorem C2_interner_idempotent_sequential :
    (∀ (st : StringInterner) (s : String) (st' : StringInterner),
        (st.intern s).2.data <+: st'.data →
        st'.intern s = ((st.intern s).1, st')) ∧
    (∀ xs : List String, xs.Nodup →
        internAll StringInterner.empty xs = (List.range xs.length, ⟨xs⟩)) := by
  constructor
  · exact intern_stable
  · intro xs hnd
    have := internAll_fresh xs StringInterner.empty hnd (by intro x _; simp [StringInterner.empty])
    simpa [StringInterner.empty, List.range_eq_range'] using this

theorem C2_interner_witness :
    ((StringInterner.intern StringInterner.empty "a").2.data
        <+: (StringInterner.intern StringInterner.empty "a").2.data ∧
      (StringInterner.intern StringInterner.empty "a").2.intern "a"
        = ((StringInterner.intern StringInterner.empty "a").1,
           (StringInterner.intern StringInterner.empty "a").2)) ∧
    (["a", "b", "c"].Nodup ∧
      internAll StringInterner.empty ["a", "b", "c"] = ([0, 1, 2], ⟨["a", "b", "c"]⟩)) := by
  have hself : (StringInterner.intern StringInterner.empty "a").2.data
      <+: (StringInterner.intern StringInterner.empty "a").2.data :=
    ⟨[], List.append_nil _⟩
  refine ⟨⟨hself, ?_⟩, ⟨by decide, ?_⟩⟩
  · exact C2_interner_idempotent_sequential.1 StringInterner.empty "a" _ hself
  · have h := C2_interner_idempotent_sequential.2 ["a", "b", "c"] (by decide)
    simpa using h

/-! ### Lemmas about the compact encoder -/

theorem internPairs_extendsTable (ps : List (String × String)) (st : StringInterner) :
    st.data <+: (internPairs st ps).2.data := by
  induction ps generalizing st with
  | nil => simp [internPairs]
  | cons p rest ih =>
    simp only [internPairs]
    exact ((intern_extendsTable st p.1).trans (intern_extendsTable _ p.2)).trans (ih _)

theorem encodeSpanC_extendsTable (st : StringInterner) (m : MappedSpan) :
    st.data <+: (encodeSpanC st m).2.data := by
  unfold encodeSpanC
  cases hty : m.span_type with
  | none =>
    simp only [hty]
    exact ((intern_extendsTable st m.service).trans
      ((intern_extendsTable _ m.name).trans (intern_extendsTable _ m.resource))).trans
      (internPairs_extendsTable m.meta _)
  | some t =>
    simp only [hty]
    exact ((intern_extendsTable st m.service).trans
      ((intern_extendsTable _ m.name).trans
        ((intern_extendsTable _ m.resource).trans (intern_extendsTable _ t)))).trans
      (internPairs_extendsTable m.meta _)

theorem encodeSpansC_extendsTable (spans : List MappedSpan) (st : StringInterner) :
    st.data <+: (encodeSpansC st spans).2.data := by
  induction spans generalizing st with
  | nil => simp [encodeSpansC]
  | cons m rest ih =>
    simp only [encodeSpansC]
    exact (encodeSpanC_extendsTable st m).trans (ih _)

theorem internPairs_nodup (ps : List (String × String)) (st : StringInterner)
    (h : st.data.Nodup) : (internPairs st ps).2.data.Nodup := by
  induction ps generalizing st with
  | nil => simpa [internPairs]
  | cons p rest ih =>
    simp only [internPairs]
    exact ih _ (intern_nodup _ p.2 (intern_nodup st p.1 h))

theorem encodeSpanC_nodup (st : StringInterner) (m : MappedSpan)
    (h : st.data.Nodup) : (encodeSpanC st m).2.data.Nodup := by
  unfold encodeSpanC
  cases hty : m.span_type with
  | none =>
    simp only [hty]
    exact internPairs_nodup m.meta _
      (intern_nodup _ m.resource (intern_nodup _ m.name (intern_nodup st m.service h)))
  | some t =>
    simp only [hty]
    exact internPairs_nodup m.meta _
      (intern_nodup _ t
        (intern_nodup _ m.resource (intern_nodup _ m.name (intern_nodup st m.service h))))

theorem encodeSpansC_nodup (spans : List MappedSpan) (st : StringInterner)
    (h : st.data.Nodup) : (encodeSpansC st spans).2.data.Nodup := by
  induction spans generalizing st with
  | nil => simpa [encodeSpansC]
  | cons m rest ih =>
    simp only [encodeSpansC]
    exact ih _ (encodeSpanC_nodup st m h)

theorem encodeSpanC_resolves (st : StringInterner) (m : MappedSpan) :
    (encodeSpanC st m).2.data[(encodeSpanC st m).1.service]? = some m.service ∧
    (encodeSpanC st m).2.data[(encodeSpanC st m).1.name]? = some m.name ∧
    (encodeSpanC st m).2.data[(encodeSpanC st m).1.resource]? = some m.resource := by
  unfold encodeSpanC
  cases hty : m.span_type with
  | none =>
    simp only [hty]
    refine ⟨?_, ?_, ?_⟩
    · exact getElem_mono_of_isPre
        (((intern_extendsTable _ m.name).trans (intern_extendsTable _ m.resource)).trans
          (internPairs_extendsTable m.meta _))
        (intern_getElem st m.service)
    · exact getElem_mono_of_isPre
        ((intern_extendsTable _ m.resource).trans (internPairs_extendsTable m.meta _))
        (intern_getElem _ m.name)
    · exact getElem_mono_of_isPre (internPairs_extendsTable m.meta _) (intern_getElem _ m.resource)
  | some t =>
    simp only [hty]
    refine ⟨?_, ?_, ?_⟩
    · exact getElem_mono_of_isPre
        (((intern_extendsTable _ m.name).trans
            ((intern_extendsTable _ m.resource).trans (intern_extendsTable _ t))).trans
          (internPairs_extendsTable m.meta _))
        (intern_getElem st m.service)
    · exact getElem_mono_of_isPre
        (((intern_extendsTable _ m.resource).trans (intern_extendsTable _ t)).trans
          (internPairs_extendsTable m.meta _))
        (intern_getElem _ m.name)
    · exact getElem_mono_of_isPre
        ((intern_extendsTable _ t).trans (internPairs_extendsTable m.meta _))
        (intern_getElem _ m.resource)

theorem encodeSpansC_resolves (spans : List MappedSpan) (st : StringInterner) :
    ∀ p ∈ (encodeSpansC st spans).1.zip spans,
      (encodeSpansC st spans).2.data[p.1.service]? = some p.2.service ∧
      (encodeSpansC st spans).2.data[p.1.name]? = some p.2.name ∧
      (encodeSpansC st spans).2.data[p.1.resource]? = some p.2.resource := by
  induction spans generalizing st with
  | nil => simp [encodeSpansC]
  | cons m rest ih =>
    intro p hp
    simp only [encodeSpansC, List.zip_cons_cons, List.mem_cons] at hp
    rcases hp with hp | hp
    · subst hp
      have h := encodeSpanC_resolves st m
      have hpre : (encodeSpanC st m).2.data <+:
          (encodeSpansC (encodeSpanC st m).2 rest).2.data :=
        encodeSpansC_extendsTable rest _
      exact ⟨getElem_mono_of_isPre hpre h.1, getElem_mono_of_isPre hpre h.2.1,
        getElem_mono_of_isPre hpre h.2.2⟩
    · exact ih _ p hp

/-- C1: for every batch encoded with the compact format, resolving each span
record's string indices against the emitted string table reproduces exactly
the original service, name and resource strings of every span; the table has
no duplicate strings, so a string shared by two spans appears exactly once,
and two spans sharing a string (such as a common service) reference the same
index. -/
theorem C1_compact_roundtrip (spans : List MappedSpan) :
    (∀ p ∈ (encodeBatchC spans).1.zip spans,
        resolveIdx (encodeBatchC spans).2 p.1.service = some p.2.service ∧
        resolveIdx (encodeBatchC spans).2 p.1.name = some p.2.name ∧
        resolveIdx (encodeBatchC spans).2 p.1.resource = some p.2.resource) ∧
    (encodeBatchC spans).2.Nodup ∧
    (∀ p ∈ (encodeBatchC spans).1.zip spans,
      ∀ q ∈ (encodeBatchC spans).1.zip spans,
        p.2.service = q.2.service → p.1.service = q.1.service) := by
  have hres := encodeSpansC_resolves spans StringInterner.empty
  have hnd : (encodeSpansC StringInterner.empty spans).2.data.Nodup :=
    encodeSpansC_nodup spans StringInterner.empty (by simp [StringInterner.empty])
  refine ⟨?_, hnd, ?_⟩
  · intro p hp
    exact hres p hp
  · intro p hp q hq hsv
    have h1 := (hres p hp).1
    have h2 := (hres q hq).1
    rw [hsv] at h1
    exact getElem?_inj_of_nodup hnd h1 h2

/-- First span of the C1 witness batch. -/
def c1SpanA : MappedSpan :=
  { trace_id := 1, span_id := 2, parent_id := 0, service := "my-service"
    name := providerIdentity, resource := "GET /users", span_type := none
    start := 0, duration := 10, error := 0, meta := [], metrics := [] }

/-- Second span of the C1 witness batch, sharing the service string. -/
def c1SpanB : MappedSpan :=
  { c1SpanA with span_id := 3, resource := "POST /users" }

/-- The C1 witness batch: two spans sharing the service string. -/
def c1Spans : List MappedSpan := [c1SpanA, c1SpanB]

/-- The compact record produced for the first witness span. -/
def c1RecA : CompactSpan :=
  { service := 0, name := 1, resource := 2, span_type := none
    trace_id := 1, span_id := 2, parent_id := 0
    start := 0, duration := 10, error := 0, meta := [], metrics := [] }

/-- The compact record produced for the second witness span. -/
def c1RecB : CompactSpan :=
  { c1RecA with span_id := 3, resource := 3 }

theorem C1_compact_roundtrip_witness :
    (c1RecA, c1SpanA) ∈ (encodeBatchC c1Spans).1.zip c1Spans ∧
    resolveIdx (encodeBatchC c1Spans).2 c1RecA.service = some "my-service" ∧
    (encodeBatchC c1Spans).2.Nodup ∧
    c1RecA.service = c1RecB.service ∧
    (encodeBatchC c1Spans).2.count "my-service" = 1 := by
  have hz : (encodeBatchC c1Spans).1.zip c1Spans
      = [(c1RecA, c1SpanA), (c1RecB, c1SpanB)] := rfl
  have hmA : (c1RecA, c1SpanA) ∈ (encodeBatchC c1Spans).1.zip c1Spans := by
    rw [hz]
    exact List.mem_cons_self _ _
  have hmB : (c1RecB, c1SpanB) ∈ (encodeBatchC c1Spans).1.zip c1Spans := by
    rw [hz]
    exact List.mem_cons_of_mem _ (List.mem_cons_self _ _)
  have h := C1_compact_roundtrip c1Spans
  refine ⟨hmA, ?_, h.2.1, ?_, by decide⟩
  · exact (h.1 (c1RecA, c1SpanA) hmA).1
  · exact h.2.2 (c1RecA, c1SpanA) hmA (c1RecB, c1SpanB) hmB rfl

/-! ### Lemmas about the attribute splitter and mapper -/

theorem splitAttributes_keys_perm (attrs : List (String × Value)) :
    List.Perm
      ((splitAttributes attrs).1.map Prod.fst ++ (splitAttributes attrs).2.map Prod.fst)
      (attrs.map Prod.fst) := by
  induction attrs with
  | nil => simp [splitAttributes]
  | cons p rest ih =>
    cases hv : p.2 with
    | str s =>
      simp only [splitAttributes, hv, List.map_cons, List.cons_append]
      exact ih.cons p.1
    | boolV b =>
      simp only [splitAttributes, hv, List.map_cons, List.cons_append]
      exact ih.cons p.1
    | int i =>
      simp only [splitAttributes, hv, List.map_cons]
      exact List.perm_middle.trans (ih.cons p.1)
    | float f =>
      simp only [splitAttributes, hv, List.map_cons]
      exact List.perm_middle.trans (ih.cons p.1)

theorem splitAttributes_mem_str (attrs : List (String × Value)) (k s : String)
    (h : (k, Value.str s) ∈ attrs) : (k, s) ∈ (splitAttributes attrs).1 := by
  induction attrs with
  | nil => simp at h
  | cons p rest ih =>
    rcases List.mem_cons.mp h with h | h
    · rw [← h]
      simp [splitAttributes]
    · cases hv : p.2 <;> simp only [splitAttributes, hv] <;>
        first
          | exact List.mem_cons_of_mem _ (ih h)
          | exact ih h

theorem splitAttributes_mem_bool (attrs : List (String × Value)) (k : String) (b : Bool)
    (h : (k, Value.boolV b) ∈ attrs) : (k, renderBool b) ∈ (splitAttributes attrs).1 := by
  induction attrs with
  | nil => simp at h
  | cons p rest ih =>
    rcases List.mem_cons.mp h with h | h
    · rw [← h]
      simp [splitAttributes]
    · cases hv : p.2 <;> simp only [splitAttributes, hv] <;>
        first
          | exact List.mem_cons_of_mem _ (ih h)
          | exact ih h

theorem splitAttributes_mem_int (attrs : List (String × Value)) (k : String) (i : Int)
    (h : (k, Value.int i) ∈ attrs) : k ∈ (splitAttributes attrs).2.map Prod.fst := by
  induction attrs with
  | nil => simp at h
  | cons p rest ih =>
    rcases List.mem_cons.mp h with h | h
    · rw [← h]
      simp [splitAttributes]
    · cases hv : p.2 <;> simp only [splitAttributes, hv, List.map_cons] <;>
        first
          | exact List.mem_cons_of_mem _ (ih h)
          | exact ih h

theorem splitAttributes_mem_float (attrs : List (String × Value)) (k : String) (f : Float)
    (h : (k, Value.float f) ∈ attrs) : k ∈ (splitAttributes attrs).2.map Prod.fst := by
  induction attrs with
  | nil => simp at h
  | cons p rest ih =>
    rcases List.mem_cons.mp h with h | h
    · rw [← h]
      simp [splitAttributes]
    · cases hv : p.2 <;> simp only [splitAttributes, hv, List.map_cons] <;>
        first
          | exact List.mem_cons_of_mem _ (ih h)
          | exact ih h

/-- C6: the Attribute Splitter places each attribute key of a span's attribute
mapping (a mapping, so its keys are distinct) in exactly one of `meta` and
`metrics`, never both; the union of the output key sets equals the input key
set; string attributes and booleans rendered as "true"/"false" go to `meta`,
integer and floating-point attributes go to `metrics`. -/
theorem C6_splitter_partition (attrs : List (String × Value))
    (hnd : (attrs.map Prod.fst).Nodup) :
    (∀ k, ¬(k ∈ (splitAttributes attrs).1.map Prod.fst ∧
        k ∈ (splitAttributes attrs).2.map Prod.fst)) ∧
    (∀ k, k ∈ (splitAttributes attrs).1.map Prod.fst ∨
        k ∈ (splitAttributes attrs).2.map Prod.fst ↔ k ∈ attrs.map Prod.fst) ∧
    (∀ k s, (k, Value.str s) ∈ attrs → (k, s) ∈ (splitAttributes attrs).1) ∧
    (∀ k b, (k, Value.boolV b) ∈ attrs →
        (k, renderBool b) ∈ (splitAttributes attrs).1) ∧
    (∀ k i, (k, Value.int i) ∈ attrs →
        k ∈ (splitAttributes attrs).2.map Prod.fst) ∧
    (∀ k f, (k, Value.float f) ∈ attrs →
        k ∈ (splitAttributes attrs).2.map Prod.fst) := by
  have hperm := splitAttributes_keys_perm attrs
  have happ : ((splitAttributes attrs).1.map Prod.fst
      ++ (splitAttributes attrs).2.map Prod.fst).Nodup := hperm.nodup_iff.mpr hnd
  refine ⟨?_, ?_, splitAttributes_mem_str attrs, splitAttributes_mem_bool attrs,
    splitAttributes_mem_int attrs, splitAttributes_mem_float attrs⟩
  · intro k ⟨h1, h2⟩
    exact List.disjoint_of_nodup_append happ h1 h2
  · intro k
    rw [← hperm.mem_iff, List.mem_append]

/-- Concrete attribute map for the C6 witness: one of each value type. -/
def c6Attrs : List (String × Value) :=
  [("a", Value.str "x"), ("b", Value.boolV true), ("c", Value.int 3),
   ("d", Value.float 2.5)]

theorem C6_splitter_witness :
    (c6Attrs.map Prod.fst).Nodup ∧
    ¬("a" ∈ (splitAttributes c6Attrs).1.map Prod.fst ∧
      "a" ∈ (splitAttributes c6Attrs).2.map Prod.fst) ∧
    ("c" ∈ (splitAttributes c6Attrs).1.map Prod.fst ∨
      "c" ∈ (splitAttributes c6Attrs).2.map Prod.fst ↔ "c" ∈ c6Attrs.map Prod.fst) ∧
    ("a", "x") ∈ (splitAttributes c6Attrs).1 ∧
    ("b", renderBool true) ∈ (splitAttributes c6Attrs).1 ∧
    "c" ∈ (splitAttributes c6Attrs).2.map Prod.fst ∧
    "d" ∈ (splitAttributes c6Attrs).2.map Prod.fst := by
  have hnd : (c6Attrs.map Prod.fst).Nodup := by decide
  have h := C6_splitter_partition c6Attrs hnd
  exact ⟨hnd, h.1 "a", h.2.1 "c",
    h.2.2.1 "a" "x" (List.mem_cons_self _ _),
    h.2.2.2.1 "b" true (by simp [c6Attrs]),
    h.2.2.2.2.1 "c" 3 (by simp [c6Attrs]),
    h.2.2.2.2.2 "d" 2.5 (by simp [c6Attrs])⟩

/-- C5: the Mapped Span's duration is always nonnegative, and a raw duration
computation that underflows (end before start) is clamped to zero rather than
rejected. -/
theorem C5_duration_clamped (service_name : String) (s : SpanData) :
    0 ≤ (mapSpan service_name s).duration ∧
    (s.end_time - s.start_time < 0 → (mapSpan service_name s).duration = 0) := by
  constructor
  · exact le_max_left 0 _
  · intro h
    show max 0 (s.end_time - s.start_time) = 0
    exact max_eq_left (le_of_lt h)

/-- A span whose raw duration computation underflows, for the C5 witness. -/
def c5Span : SpanData :=
  { trace_id := 1, span_id := 1, parent_span_id := none, name := "op"
    start_time := 100, end_time := 40, status := SpanStatus.ok
    status_message := none, attributes := [], kind := "client" }

theorem C5_duration_witness :
    0 ≤ (mapSpan "svc" c5Span).duration ∧
    (c5Span.end_time - c5Span.start_time < 0 ∧ (mapSpan "svc" c5Span).duration = 0) := by
  refine ⟨(C5_duration_clamped "svc" c5Span).1, by decide, ?_⟩
  exact (C5_duration_clamped "svc" c5Span).2 (by decide)

/-- The input span of the C4 end-to-end scenario. -/
def c4Span : SpanData :=
  { trace_id := 0x0102030405060708090A0B0C0D0E0F10
    span_id := 0x42
    parent_span_id := none
    name := "GET /users"
    start_time := 0
    end_time := 1500000
    status := SpanStatus.ok
    status_message := none
    attributes := []
    kind := "client" }

/-- C4: mapping the scenario span yields trace_id equal to the low 64 bits of
the 128-bit input identifier, resource equal to the caller-supplied span name,
name equal to the fixed tracing-provider identity string, error 0, and meta
and metrics both present but empty. -/
theorem C4_mapper_scenario :
    (mapSpan DEFAULT_SERVICE_NAME c4Span).trace_id = 0x090A0B0C0D0E0F10 ∧
    (mapSpan DEFAULT_SERVICE_NAME c4Span).span_id = 0x42 ∧
    (mapSpan DEFAULT_SERVICE_NAME c4Span).resource = "GET /users" ∧
    (mapSpan DEFAULT_SERVICE_NAME c4Span).name = providerIdentity ∧
    (mapSpan DEFAULT_SERVICE_NAME c4Span).error = 0 ∧
    (mapSpan DEFAULT_SERVICE_NAME c4Span).meta = [] ∧
    (mapSpan DEFAULT_SERVICE_NAME c4Span).metrics = [] ∧
    (mapSpan DEFAULT_SERVICE_NAME c4Span).duration = 1500000 := by
  refine ⟨by decide, rfl, rfl, rfl, rfl, rfl, rfl, by decide⟩

/-! ### Export pipeline claims -/

/-- C3: if encoding the batch fails, or the outbound request cannot be built,
or the client's send fails, the export returns the uniform non-retryable
failure result; when encoding fails (and likewise when building the request
fails), the function returns before anything is handed to the transport, so no
payload is ever transmitted. -/
theorem C3_export_failure_handling {C : Type} (e : DatadogExporter C)
    (encode : ApiVersion → String → List SpanData → Option (List Nat))
    (ok : HttpRequest → Bool) (send : C → HttpRequest → Option ExportResult)
    (batch : List SpanData) :
    (encode e.version e.service_name batch = none →
        e.export encode ok send batch = (ExportResult.FailedNotRetryable, [])) ∧
    (∀ data, encode e.version e.service_name batch = some data →
        mkRequest ok e.request_url e.version.content_type data = none →
        e.export encode ok send batch = (ExportResult.FailedNotRetryable, [])) ∧
    (∀ data req, encode e.version e.service_name batch = some data →
        mkRequest ok e.request_url e.version.content_type data = some req →
        send e.client req = none →
        e.export encode ok send batch = (ExportResult.FailedNotRetryable, [req])) := by
  refine ⟨?_, ?_, ?_⟩
  · intro h
    unfold DatadogExporter.export
    rw [h]
  · intro data h1 h2
    unfold DatadogExporter.export
    simp only [h1, h2]
  · intro data req h1 h2 h3
    unfold DatadogExporter.export
    simp only [h1, h2, h3]

/-- A concrete exporter over a trivial client, as produced by installing the
default pipeline. -/
def c3Exporter : DatadogExporter Unit :=
  DatadogExporter.new "OpenTelemetry" "http://127.0.0.1:8126/v0.5/traces"
    ApiVersion.Version05 ()

theorem C3_export_witness :
    (c3Exporter.export (fun _ _ _ => none) (fun _ => true)
        (fun _ _ => some ExportResult.Success) []
      = (ExportResult.FailedNotRetryable, [])) ∧
    (c3Exporter.export (fun _ _ _ => some []) (fun _ => false)
        (fun _ _ => some ExportResult.Success) []
      = (ExportResult.FailedNotRetryable, [])) ∧
    (c3Exporter.export (fun _ _ _ => some []) (fun _ => true) (fun _ _ => none) []
      = (ExportResult.FailedNotRetryable,
          [⟨"POST", c3Exporter.request_url, c3Exporter.version.content_type, []⟩])) := by
  refine ⟨?_, ?_, ?_⟩
  · exact (C3_export_failure_handling c3Exporter _ _ _ _).1 rfl
  · exact (C3_export_failure_handling c3Exporter _ _ _ _).2.1 [] rfl rfl
  · exact (C3_export_failure_handling c3Exporter _ _ _ _).2.2 []
      ⟨"POST", c3Exporter.request_url, c3Exporter.version.content_type, []⟩ rfl rfl rfl

/-- C7: every request an export call hands to the transport is a POST whose
URL is the exporter's request URL and whose Content-Type header is the
selected version's MIME value; installing sets that request URL by parsing
the configured base agent endpoint with the version's path suffix appended;
and the two versions have distinct path suffixes and distinct MIME values. -/
theorem C7_url_and_content_type :
    (∀ (C : Type) (e : DatadogExporter C) encode ok send batch req,
        req ∈ (e.export encode ok send batch).2 →
        req.method = "POST" ∧ req.uri = e.request_url ∧
          req.contentType = e.version.content_type) ∧
    (∀ (T C : Type) (b : DatadogPipelineBuilder T C) parseUri e,
        b.install parseUri = some e →
        parseUri (b.agent_endpoint ++ b.version.path) = some e.request_url ∧
          e.version = b.version) ∧
    ApiVersion.Version03.path ≠ ApiVersion.Version05.path ∧
    ApiVersion.Version03.content_type ≠ ApiVersion.Version05.content_type := by
  refine ⟨?_, ?_, by decide, by decide⟩
  · intro C e encode ok send batch req hmem
    unfold DatadogExporter.export at hmem
    cases h1 : encode e.version e.service_name batch with
    | none =>
      rw [h1] at hmem
      simp at hmem
    | some data =>
      simp only [h1] at hmem
      cases h2 : mkRequest ok e.request_url e.version.content_type data with
      | none =>
        simp [h2] at hmem
      | some req' =>
        simp only [h2, List.mem_singleton] at hmem
        subst hmem
        unfold mkRequest at h2
        split at h2
        · injection h2 with h
          subst h
          exact ⟨rfl, rfl, rfl⟩
        · cases h2
  · intro T C b parseUri e hinst
    unfold DatadogPipelineBuilder.install at hinst
    cases hp : parseUri (b.agent_endpoint ++ b.version.path) with
    | none =>
      rw [hp] at hinst
      cases hinst
    | some u =>
      rw [hp] at hinst
      injection hinst with h
      subst h
      exact ⟨rfl, rfl⟩

/-- The request handed to the transport in the C7 witness scenario. -/
def c7Req : HttpRequest :=
  ⟨"POST", "http://127.0.0.1:8126/v0.5/traces", ApiVersion.Version05.content_type, []⟩

theorem C7_url_witness :
    ((DatadogPipelineBuilder.new () : DatadogPipelineBuilder Unit Unit).install some
        = some c3Exporter) ∧
    (some ((DatadogPipelineBuilder.new () : DatadogPipelineBuilder Unit Unit).agent_endpoint
          ++ (DatadogPipelineBuilder.new () : DatadogPipelineBuilder Unit Unit).version.path)
        = some c3Exporter.request_url ∧
      c3Exporter.version = ApiVersion.Version05) ∧
    (c7Req ∈ (c3Exporter.export (fun _ _ _ => some []) (fun _ => true)
        (fun _ _ => none) []).2) ∧
    (c7Req.method = "POST" ∧ c7Req.uri = c3Exporter.request_url ∧
      c7Req.contentType = c3Exporter.version.content_type) := by
  have hinst : (DatadogPipelineBuilder.new () : DatadogPipelineBuilder Unit Unit).install some
      = some c3Exporter := by rfl
  have hmem : c7Req ∈ (c3Exporter.export (fun _ _ _ => some []) (fun _ => true)
      (fun _ _ => none) []).2 := by
    show c7Req ∈ [c7Req]
    exact List.mem_cons_self _ _
  have h2 := C7_url_and_content_type.2.1 Unit Unit (DatadogPipelineBuilder.new ())
    some c3Exporter hinst
  have h1 := C7_url_and_content_type.1 Unit c3Exporter (fun _ _ _ => some [])
    (fun _ => true) (fun _ _ => none) [] c7Req hmem
  exact ⟨hinst, ⟨h2.1, h2.2⟩, hmem, h1⟩

/-- C8: a freshly created pipeline builder carries the fixed placeholder
service name, the local loopback agent endpoint, the compact Version05 wire
format, and no trace configuration. -/
theorem C8_builder_defaults (T C : Type) (client : C) :
    (DatadogPipelineBuilder.new client : DatadogPipelineBuilder T C).service_name
        = "OpenTelemetry" ∧
    (DatadogPipelineBuilder.new client : DatadogPipelineBuilder T C).agent_endpoint
        = "http://127.0.0.1:8126" ∧
    (DatadogPipelineBuilder.new client : DatadogPipelineBuilder T C).trace_config
        = none ∧
    (DatadogPipelineBuilder.new client : DatadogPipelineBuilder T C).version
        = ApiVersion.Version05 :=
  ⟨rfl, rfl, rfl, rfl⟩

/-- C9: each builder setter changes only its own field and leaves every other
field, including the client, unchanged, for every starting builder state and
argument. -/
theorem C9_setters_frame (T C : Type) (b : DatadogPipelineBuilder T C)
    (n endp : String) (cfg : T) (v : ApiVersion) :
    ((b.with_service_name n).service_name = n ∧
      (b.with_service_name n).agent_endpoint = b.agent_endpoint ∧
      (b.with_service_name n).trace_config = b.trace_config ∧
      (b.with_service_name n).version = b.version ∧
      (b.with_service_name n).client = b.client) ∧
    ((b.with_agent_endpoint endp).agent_endpoint = endp ∧
      (b.with_agent_endpoint endp).service_name = b.service_name ∧
      (b.with_agent_endpoint endp).trace_config = b.trace_config ∧
      (b.with_agent_endpoint endp).version = b.version ∧
      (b.with_agent_endpoint endp).client = b.client) ∧
    ((b.with_trace_config cfg).trace_config = some cfg ∧
      (b.with_trace_config cfg).service_name = b.service_name ∧
      (b.with_trace_config cfg).agent_endpoint = b.agent_endpoint ∧
      (b.with_trace_config cfg).version = b.version ∧
      (b.with_trace_config cfg).client = b.client) ∧
    ((b.with_version v).version = v ∧
      (b.with_version v).service_name = b.service_name ∧
      (b.with_version v).agent_endpoint = b.agent_endpoint ∧
      (b.with_version v).trace_config = b.trace_config ∧
      (b.with_version v).client = b.client) :=
  ⟨⟨rfl, rfl, rfl, rfl, rfl⟩, ⟨rfl, rfl, rfl, rfl, rfl⟩,
    ⟨rfl, rfl, rfl, rfl, rfl⟩, ⟨rfl, rfl, rfl, rfl, rfl⟩⟩

/-- C10: install fails exactly when the concatenation of the configured agent
endpoint and the selected version's path suffix fails to parse as a URI, and
a successfully installed exporter holds exactly the parsed URL. -/
theorem C10_install_error_iff (T C : Type) (b : DatadogPipelineBuilder T C)
    (parseUri : String → Option String) :
    (b.install parseUri = none ↔
      parseUri (b.agent_endpoint ++ b.version.path) = none) ∧
    (∀ e, b.install parseUri = some e →
      parseUri (b.agent_endpoint ++ b.version.path) = some e.request_url) := by
  constructor
  · unfold DatadogPipelineBuilder.install
    cases hp : parseUri (b.agent_endpoint ++ b.version.path) with
    | none => simp [hp]
    | some u => simp [hp]
  · intro e he
    unfold DatadogPipelineBuilder.install at he
    cases hp : parseUri (b.agent_endpoint ++ b.version.path) with
    | none =>
      rw [hp] at he
      cases he
    | some u =>
      rw [hp] at he
      injection he with h
      subst h
      rfl

theorem C10_install_witness :
    ((DatadogPipelineBuilder.new () : DatadogPipelineBuilder Unit Unit).install
        (fun _ => none) = none) ∧
    some ((DatadogPipelineBuilder.new () : DatadogPipelineBuilder Unit Unit).agent_endpoint
        ++ ApiVersion.Version05.path) = some c3Exporter.request_url := by
  constructor
  · exact (C10_install_error_iff Unit Unit (DatadogPipelineBuilder.new ())
      (fun _ => none)).1.mpr rfl
  · exact (C10_install_error_iff Unit Unit (DatadogPipelineBuilder.new ()) some).2
      c3Exporter (by rfl)
